import Mathlib

/-!
Verification of the incremental translation pipeline of `src/src/App.tsx`
(a browser-based real-time zh/en translator).

The embedding is shallow: the pure parts of the source (the stream-decoding
generator `translateTextStream`, the request logic of `performTranslation`,
the debounce effect, and `speak`) are translated into executable Lean
functions.  JavaScript strings are modelled as Lean `String`s (`.length` is
the code-unit/character count, adequate for the ASCII inputs of the claims),
`String.prototype.trim` / `toLowerCase` / `split('\n')` / `Array.join('\n')`
/ `includes` are re-implemented below on the character list of the string
(ASCII whitespace model), and the chunked network stream is modelled as a
list of events: either a text chunk, or the point at which the stream /
remote call throws.
-/

namespace RTTR

/-- ASCII model of JS `String.prototype.trim` on a character list:
drop whitespace from the front, then (via `reverse`) from the back. -/
def trimChars (l : List Char) : List Char :=
  ((l.dropWhile Char.isWhitespace).reverse.dropWhile Char.isWhitespace).reverse

/-- JS `text.trim()`. -/
def jsTrim (s : String) : String :=
  String.mk (trimChars s.data)

/-- JS `text.toLowerCase()` (ASCII model: `Char.toLower` maps only A-Z). -/
def jsToLower (s : String) : String :=
  String.mk (s.data.map Char.toLower)

/-- JS `s.includes(pat)`: `pat` occurs as a contiguous substring of `s`. -/
def jsIncludes (s pat : String) : Bool :=
  decide (pat.data <:+: s.data)

/-- JS `String.prototype.split('\n')` on a character list.  Like the JS
function it always returns at least one (possibly empty) field. -/
def splitNlChars : List Char → List (List Char)
  | [] => [[]]
  | c :: rest =>
      let r := splitNlChars rest
      if c = '\n' then [] :: r
      else
        match r with
        | [] => [[c]]
        | h :: t => (c :: h) :: t

/-- JS `chunkText.split('\n')`. -/
def jsSplitNl (s : String) : List String :=
  (splitNlChars s.data).map String.mk

/-- JS `Array.prototype.join('\n')` on character lists. -/
def joinNlChars : List (List Char) → List Char
  | [] => []
  | [l] => l
  | l :: rest => l ++ '\n' :: joinNlChars rest

/-- JS `lines.join('\n')`. -/
def jsJoinNl (ls : List String) : String :=
  String.mk (joinNlChars (ls.map String.data))

/-- The objects yielded by the generator `translateTextStream` and published
via `setTranslation` (App.tsx:64/67/180).  The source yields
`{ detectedLanguage, translation }`; the `isComplete` field of the declared
`interface TranslationResult` (App.tsx:19-23) is never assigned anywhere, so
reading it on a yielded object gives JS `undefined`, modelled as `none`.
`detectedLanguage` is the runtime string `"zh"` or `"en"`. -/
structure TranslationResult where
  detectedLanguage : String
  translation : String
  isComplete : Option Bool := none
deriving DecidableEq, Repr

/-- One event of the chunked remote stream consumed by the `for await` loop:
a text chunk (`chunk.text`; the empty string also covers a JS
`undefined`/falsy `chunk.text`), or the point at which the remote call or
the stream throws. -/
inductive StreamEvent where
  | chunk (text : String)
  | error
deriving DecidableEq, Repr

/-- The generator's mutable locals (App.tsx:52-53): `detectedLang` (the
empty string means "not yet decided") and the accumulated buffer
`fullText`. -/
structure DecodeState where
  detectedLang : String
  fullText : String
deriving DecidableEq, Repr

/-- The language decision of App.tsx:61 for a first chunk `t`:
`lines[0].trim().toLowerCase().includes('zh') ? 'zh' : 'en'`. -/
def langOfChunk (t : String) : String :=
  if jsIncludes (jsToLower (jsTrim ((jsSplitNl t).headD ""))) "zh" then "zh" else "en"

/-- App.tsx:62, `lines.slice(1).join('\n')`: the part of the first chunk
after its first line. -/
def restOfChunk (t : String) : String :=
  jsJoinNl ((jsSplitNl t).drop 1)

/-- The body of the `for await` loop of `translateTextStream`
(App.tsx:55-68) for one chunk: skip a falsy chunk, otherwise either decide
the language from the first line (discarding that line, appending the rest)
or append the whole chunk, and yield the accumulated buffer. -/
def processChunk (st : DecodeState) (chunkText : String) :
    DecodeState × List TranslationResult :=
  if chunkText = "" then (st, [])
  else if st.detectedLang = "" then
    let detectedLang := langOfChunk chunkText
    let fullText := st.fullText ++ restOfChunk chunkText
    (⟨detectedLang, fullText⟩, [⟨detectedLang, fullText, none⟩])
  else
    let fullText := st.fullText ++ chunkText
    (⟨st.detectedLang, fullText⟩, [⟨st.detectedLang, fullText, none⟩])

/-- Run of the `for await` loop over the stream events.  The first component
is the list of yielded results; the second records whether the
`catch` branch of App.tsx:70-72 ran (the loop stops at the first `error`
event and the exception is swallowed there, producing no further yields). -/
def decodeRun (st : DecodeState) : List StreamEvent → List TranslationResult × Bool
  | [] => ([], false)
  | StreamEvent.error :: _ => ([], true)
  | StreamEvent.chunk t :: rest =>
      let p := processChunk st t
      let r := decodeRun p.1 rest
      (p.2 ++ r.1, r.2)

/-- The generator `translateTextStream` (App.tsx:28-73) as a function from
the input text and the stream events to the list of yielded results: a
blank input returns before contacting the remote service (App.tsx:29), and
the caught error flag of `decodeRun` is discarded (the catch only logs). -/
def translateTextStream (text : String) (events : List StreamEvent) :
    List TranslationResult :=
  if jsTrim text = "" then [] else (decodeRun ⟨"", ""⟩ events).1

/-- The two pieces of renderer-visible state written by the coordinator:
the `translation` slot and the `isTranslating` flag (App.tsx:78-80). -/
structure AppState where
  translation : Option TranslationResult
  isTranslating : Bool
deriving DecidableEq, Repr

/-- Outcome of one `performTranslation` call: the final state, the ordered
list of results published via `setTranslation`, and whether the remote
translation call was issued. -/
structure PerformOutcome where
  final : AppState
  published : List TranslationResult
  remoteInvoked : Bool
deriving DecidableEq, Repr

/-- Each `setTranslation result` of the loop (App.tsx:179-181) replaces the
slot, so after the loop the slot holds the last published result, or its
previous value when nothing was published. -/
def publishFold (prev : Option TranslationResult)
    (results : List TranslationResult) : Option TranslationResult :=
  results.foldl (fun _ r => some r) prev

/-- `performTranslation` (App.tsx:162-187) for a single request, run to
completion on its stream: a blank input clears the slot, resets
`isTranslating` and returns before the remote call (App.tsx:163-167);
otherwise the generator's results are published in order and the `finally`
resets `isTranslating` (App.tsx:184-186).  The transient
`setIsTranslating(true)` of App.tsx:169 is not visible in the final
outcome. -/
def performTranslation (st : AppState) (text : String)
    (events : List StreamEvent) : PerformOutcome :=
  if jsTrim text = "" then
    { final := { translation := none, isTranslating := false },
      published := [], remoteInvoked := false }
  else
    let results := translateTextStream text events
    { final := { translation := publishFold st.translation results,
                 isTranslating := false },
      published := results, remoteInvoked := true }

/-- Events of `events` that make the loop body yield: non-empty chunks. -/
def isRealChunk : StreamEvent → Bool
  | StreamEvent.chunk t => t != ""
  | StreamEvent.error => false

/-- The debounce delay of App.tsx:196:
`input.length < 5 ? 200 : 400` (milliseconds). -/
def debounceDelay (input : String) : Nat :=
  if input.length < 5 then 200 else 400

/-- State of the debounce effect (App.tsx:189-207): the timer currently held
by `debounceTimerRef` — its delay and the text it will dispatch — together
with a count of all live timers, used to express "at most one timer
outstanding" without building it into the type. -/
structure DebounceState where
  pendingTimer : Option (Nat × String)
  outstanding : Nat
deriving DecidableEq, Repr

/-- `clearTimeout(debounceTimerRef.current)` guarded by the null check of
App.tsx:190-192: cancels the referenced timer if there is one. -/
def clearPending (st : DebounceState) : DebounceState :=
  if st.pendingTimer.isSome then
    { pendingTimer := none, outstanding := st.outstanding - 1 }
  else st

/-- One run of the debounce `useEffect` body (App.tsx:189-207) on an input
change: always clear the referenced timer first, then schedule dispatch of
`performTranslation input` after `debounceDelay input` when the input is
non-empty.  (The `setTranslation(null)` of the empty branch concerns the
translation slot, not the timers, and is not part of this state.) -/
def debounceEffect (st : DebounceState) (input : String) : DebounceState :=
  let cleared := clearPending st
  if input = "" then cleared
  else { pendingTimer := some (debounceDelay input, input),
         outstanding := cleared.outstanding + 1 }

/-- Renderer-observable log of the race between two overlapping
`performTranslation` calls: each `setTranslation` publish is recorded with
the sequence number of the request it came from (0 = older, 1 = newer), and
`submitted` marks the entry of the newer call. -/
inductive LogEntry where
  | published (req : Nat) (r : TranslationResult)
  | submitted
deriving DecidableEq, Repr

/-- A scheduling choice of the event loop while two `performTranslation`
calls overlap: deliver the old request's next chunk (its loop body then
publishes), run the newer `performTranslation` up to its first await, or
deliver the new request's next chunk. -/
inductive SchedStep where
  | oldChunk
  | newSubmit
  | newChunk
deriving DecidableEq, Repr

/-- Interleaving state of the two overlapping calls.  Each element of
`oldPending`/`newPending` is a yield of the respective generator; the awaits
between chunks (App.tsx:55, 179) make each publish a separate event-loop
turn.  `oldAborted` is the effect of `abortControllerRef.current.abort()`
(App.tsx:172-174) on the old call's controller. -/
structure RaceState where
  oldPending : List TranslationResult
  newStarted : Bool
  newPending : List TranslationResult
  oldAborted : Bool
  log : List LogEntry
deriving DecidableEq, Repr

/-- One event-loop turn.  Mirroring App.tsx:179-181, the old request's loop
body publishes its result unconditionally: the source consults neither
`abortControllerRef` nor any other token before `setTranslation(result)`. -/
def raceStep (s : RaceState) : SchedStep → RaceState
  | SchedStep.oldChunk =>
      match s.oldPending with
      | [] => s
      | r :: rest =>
          { s with oldPending := rest, log := s.log ++ [LogEntry.published 0 r] }
  | SchedStep.newSubmit =>
      if s.newStarted then s
      else { s with newStarted := true, oldAborted := true,
                    log := s.log ++ [LogEntry.submitted] }
  | SchedStep.newChunk =>
      if s.newStarted then
        match s.newPending with
        | [] => s
        | r :: rest =>
            { s with newPending := rest, log := s.log ++ [LogEntry.published 1 r] }
      else s

/-- Run a schedule of event-loop turns. -/
def raceRun (s : RaceState) (sched : List SchedStep) : RaceState :=
  sched.foldl raceStep s

/-- Initial race state: the old call (for `textOld`, stream `evOld`) is in
flight with all its yields still to be published; the new call (for
`textNew`, stream `evNew`) has not been submitted yet. -/
def raceInit (textOld textNew : String) (evOld evNew : List StreamEvent) :
    RaceState :=
  { oldPending := translateTextStream textOld evOld, newStarted := false,
    newPending := translateTextStream textNew evNew, oldAborted := false,
    log := [] }

/-- The published-order property claimed by the spec: once the newer request
is submitted, no result of the old request (sequence number 0) appears in
the log. -/
def noStaleAfterSubmit : List LogEntry → Bool
  | [] => true
  | LogEntry.submitted :: rest =>
      rest.all fun e =>
        match e with
        | LogEntry.published 0 _ => false
        | _ => true
  | _ :: rest => noStaleAfterSubmit rest

/-- Per-side speaking flags written by `speak` (App.tsx:82-83). -/
structure SpeakState where
  isSpeakingSource : Bool
  isSpeakingTranslation : Bool
deriving DecidableEq, Repr

/-- The `setter` of App.tsx:220: the flag of the side being spoken. -/
def setSpeaking (st : SpeakState) (isSource : Bool) (v : Bool) : SpeakState :=
  if isSource then { st with isSpeakingSource := v }
  else { st with isSpeakingTranslation := v }

/-- Externally visible actions of `speak`: the remote TTS request, playing
the returned audio through the shared audio element, and the local
`speechSynthesis` fallback. -/
inductive SpeakEffect where
  | remoteTTSCall (model text voiceName : String)
  | audioPlay (src : String)
  | localSpeak (text lang : String)
deriving DecidableEq, Repr

/-- Environment of one `speak` call: whether the remote TTS call throws,
the base64 payload found in its response (if any), and whether
`audioRef.current` is non-null. -/
structure SpeakEnv where
  remoteThrows : Bool
  remoteResult : Option String
  audioAvailable : Bool
deriving DecidableEq, Repr

/-- `speak` (App.tsx:217-262), up to its synchronous return: the guard
`if (!text) return`, the flag set, the remote-TTS branch for
`!isSource && text.length < 500` with its in-response payload check and
audio-element fallthrough, the local `speechSynthesis` fallback, and the
catch that resets the flag.  The flag resets fired later by the
`onended`/`onend`/`onerror` callbacks are outside this synchronous slice. -/
def speak (st : SpeakState) (env : SpeakEnv) (text lang : String)
    (isSource : Bool) : SpeakState × List SpeakEffect :=
  if text = "" then (st, [])
  else
    let st1 := setSpeaking st isSource true
    let localFx := SpeakEffect.localSpeak text (if lang = "zh" then "zh-CN" else "en-US")
    if isSource = false && text.length < 500 then
      let voiceName := if lang = "en" then "Puck" else "Kore"
      let callFx := SpeakEffect.remoteTTSCall "gemini-2.5-flash-preview-tts" text voiceName
      if env.remoteThrows then (setSpeaking st1 isSource false, [callFx])
      else
        match env.remoteResult with
        | some b64 =>
            if env.audioAvailable then
              (st1, [callFx, SpeakEffect.audioPlay ("data:audio/mp3;base64," ++ b64)])
            else (st1, [callFx, localFx])
        | none => (st1, [callFx, localFx])
    else (st1, [localFx])

/-! Helper lemmas about the ASCII string primitives. -/

theorem ws_toLower_eq_self (c : Char) (h : c.isWhitespace = true) :
    c.toLower = c := by
  simp only [Char.isWhitespace, Bool.or_eq_true, decide_eq_true_eq] at h
  rcases h with ((h | h) | h) | h <;> subst h <;> decide

theorem map_toLower_ws_id {p : List Char} (hp : ∀ c ∈ p, c.isWhitespace = true) :
    p.map Char.toLower = p := by
  have h : p.map Char.toLower = p.map id :=
    List.map_congr_left fun c hc => ws_toLower_eq_self c (hp c hc)
  rw [h, List.map_id]

theorem ifx_drop_left_ws {pat p q : List Char}
    (hpat : ∀ c ∈ pat, c.isWhitespace = false)
    (hp : ∀ c ∈ p, c.isWhitespace = true)
    (h : pat <:+: p ++ q) : pat <:+: q := by
  obtain ⟨s, t, hst⟩ := h
  rw [List.append_assoc] at hst
  rcases List.append_eq_append_iff.mp hst with ⟨a', hpa, hqa⟩ | ⟨c', _, hqc⟩
  · rcases List.append_eq_append_iff.mp hqa with ⟨x, hax, _⟩ | ⟨y, hpy, hqy⟩
    · cases pat with
      | nil => exact List.nil_infix
      | cons ch cs =>
          have hmem : ch ∈ p := by rw [hpa, hax]; simp
          have := hp ch hmem
          have := hpat ch (by simp)
          simp_all
    · cases a' with
      | nil =>
          simp only [List.nil_append] at hpy
          exact ⟨[], t, by rw [List.nil_append, hqy, hpy]⟩
      | cons ch cs =>
          have hmem : ch ∈ p := by rw [hpa]; simp
          have hmem' : ch ∈ pat := by rw [hpy]; simp
          have := hp ch hmem
          have := hpat ch hmem'
          simp_all
  · exact ⟨c', t, by rw [hqc, List.append_assoc]⟩

theorem ifx_drop_right_ws {pat q s : List Char}
    (hpat : ∀ c ∈ pat, c.isWhitespace = false)
    (hs : ∀ c ∈ s, c.isWhitespace = true)
    (h : pat <:+: q ++ s) : pat <:+: q := by
  have h' : pat.reverse <:+: (q ++ s).reverse := List.reverse_infix.mpr h
  rw [List.reverse_append] at h'
  have h'' : pat.reverse <:+: q.reverse :=
    ifx_drop_left_ws (fun c hc => hpat c (List.mem_reverse.mp hc))
      (fun c hc => hs c (List.mem_reverse.mp hc)) h'
  exact List.reverse_infix.mp h''

theorem ifx_middle_iff {pat p m s : List Char}
    (hpat : ∀ c ∈ pat, c.isWhitespace = false)
    (hp : ∀ c ∈ p, c.isWhitespace = true)
    (hs : ∀ c ∈ s, c.isWhitespace = true) :
    pat <:+: p ++ m ++ s ↔ pat <:+: m := by
  constructor
  · intro h
    exact ifx_drop_left_ws hpat hp (ifx_drop_right_ws hpat hs h)
  · intro h
    exact h.trans ⟨p, s, rfl⟩

theorem trimChars_decomp (l : List Char) :
    ∃ p s, (∀ c ∈ p, c.isWhitespace = true) ∧ (∀ c ∈ s, c.isWhitespace = true) ∧
      l = p ++ trimChars l ++ s := by
  refine ⟨l.takeWhile Char.isWhitespace,
    ((l.dropWhile Char.isWhitespace).reverse.takeWhile Char.isWhitespace).reverse,
    fun c hc => List.mem_takeWhile_imp hc,
    fun c hc => List.mem_takeWhile_imp (List.mem_reverse.mp hc), ?_⟩
  have h2 : l.dropWhile Char.isWhitespace =
      trimChars l ++
        ((l.dropWhile Char.isWhitespace).reverse.takeWhile Char.isWhitespace).reverse := by
    have key := congrArg List.reverse
      (List.takeWhile_append_dropWhile Char.isWhitespace
        (l.dropWhile Char.isWhitespace).reverse)
    rw [List.reverse_append, List.reverse_reverse] at key
    rw [trimChars]
    exact key.symm
  calc l = l.takeWhile Char.isWhitespace ++ l.dropWhile Char.isWhitespace :=
        (List.takeWhile_append_dropWhile Char.isWhitespace l).symm
    _ = l.takeWhile Char.isWhitespace ++ (trimChars l ++
        ((l.dropWhile Char.isWhitespace).reverse.takeWhile Char.isWhitespace).reverse) := by
        conv_lhs => rw [h2]
    _ = _ := (List.append_assoc _ _ _).symm

theorem zh_data_nonws : ∀ c ∈ ("zh".data : List Char), c.isWhitespace = false := by
  decide

theorem jsIncludes_trim_lower (line : String) :
    jsIncludes (jsToLower (jsTrim line)) "zh" = jsIncludes (jsToLower line) "zh" := by
  unfold jsIncludes jsToLower jsTrim
  simp only [decide_eq_decide]
  show "zh".data <:+: (trimChars line.data).map Char.toLower ↔
    "zh".data <:+: line.data.map Char.toLower
  obtain ⟨p, s, hp, hs, hdecomp⟩ := trimChars_decomp line.data
  have hmap : line.data.map Char.toLower =
      p ++ (trimChars line.data).map Char.toLower ++ s := by
    conv_lhs => rw [hdecomp]
    rw [List.map_append, List.map_append, map_toLower_ws_id hp, map_toLower_ws_id hs]
  rw [hmap]
  exact (ifx_middle_iff zh_data_nonws hp hs).symm

theorem langOfChunk_claim_cond (t : String) :
    langOfChunk t =
      (if jsIncludes (jsToLower ((jsSplitNl t).headD "")) "zh" then "zh" else "en") := by
  rw [langOfChunk, jsIncludes_trim_lower]

theorem jsTrim_eq_empty_of_ws (text : String)
    (h : ∀ c ∈ text.data, c.isWhitespace = true) : jsTrim text = "" := by
  rw [jsTrim, trimChars, List.dropWhile_eq_nil_iff.mpr h]
  rfl

/-! Helper lemmas about the stream decoder. -/

theorem processChunk_empty (st : DecodeState) : processChunk st "" = (st, []) := by
  simp [processChunk]

theorem processChunk_nonempty (st : DecodeState) (t : String) (ht : t ≠ "") :
    ∃ L x, processChunk st t = (⟨L, st.fullText ++ x⟩, [⟨L, st.fullText ++ x, none⟩]) := by
  by_cases hd : st.detectedLang = ""
  · exact ⟨langOfChunk t, restOfChunk t, by simp [processChunk, ht, hd]⟩
  · exact ⟨st.detectedLang, t, by simp [processChunk, ht, hd]⟩

theorem decodeRun_chunk (st : DecodeState) (t : String) (rest : List StreamEvent) :
    decodeRun st (StreamEvent.chunk t :: rest) =
      ((processChunk st t).2 ++ (decodeRun (processChunk st t).1 rest).1,
        (decodeRun (processChunk st t).1 rest).2) := rfl

theorem decodeRun_skip_empty (pre : List StreamEvent) (evs : List StreamEvent)
    (hpre : ∀ e ∈ pre, e = StreamEvent.chunk "") (st : DecodeState) :
    decodeRun st (pre ++ evs) = decodeRun st evs := by
  induction pre with
  | nil => rfl
  | cons e rest ih =>
      have he := hpre e (by simp)
      subst he
      rw [List.cons_append, decodeRun_chunk, processChunk_empty,
        ih fun e hm => hpre e (by simp [hm])]
      simp

theorem decodeRun_lang_const (evs : List StreamEvent) :
    ∀ L f, L ≠ "" → ∀ r ∈ (decodeRun ⟨L, f⟩ evs).1, r.detectedLanguage = L := by
  induction evs with
  | nil => intro L f _ r hr; simp [decodeRun] at hr
  | cons e rest ih =>
      intro L f hL r hr
      cases e with
      | error => simp [decodeRun] at hr
      | chunk t =>
          by_cases ht : t = ""
          · subst ht
            rw [decodeRun_chunk, processChunk_empty] at hr
            exact ih L f hL r (by simpa using hr)
          · have hpc : processChunk ⟨L, f⟩ t = (⟨L, f ++ t⟩, [⟨L, f ++ t, none⟩]) := by
              simp [processChunk, ht, hL]
            rw [decodeRun_chunk, hpc] at hr
            simp only [List.cons_append, List.nil_append, List.mem_cons] at hr
            rcases hr with h | h
            · rw [h]
            · exact ih L (f ++ t) hL r h

theorem langOfChunk_ne_empty (t : String) : langOfChunk t ≠ "" := by
  rw [langOfChunk]
  split <;> decide

theorem empty_string_append (s : String) : "" ++ s = s := rfl

theorem decodeRun_prefix_chain (evs : List StreamEvent) :
    ∀ st : DecodeState,
      (∀ r ∈ (decodeRun st evs).1, st.fullText.data <+: r.translation.data) ∧
      List.Chain' (fun a b => a.translation.data <+: b.translation.data)
        (decodeRun st evs).1 := by
  induction evs with
  | nil => intro st; exact ⟨by simp [decodeRun], by simp [decodeRun]⟩
  | cons e rest ih =>
      intro st
      cases e with
      | error => exact ⟨by simp [decodeRun], by simp [decodeRun]⟩
      | chunk t =>
          by_cases ht : t = ""
          · subst ht
            rw [decodeRun_chunk, processChunk_empty]
            simpa using ih st
          · obtain ⟨L, x, hpc⟩ := processChunk_nonempty st t ht
            rw [decodeRun_chunk, hpc]
            have hih := ih ⟨L, st.fullText ++ x⟩
            have hpfx : st.fullText.data <+: (st.fullText ++ x).data := by
              rw [String.data_append]
              exact List.prefix_append _ _
            constructor
            · intro r hr
              simp only [List.cons_append, List.nil_append, List.mem_cons] at hr
              rcases hr with h | h
              · rw [h]
                exact hpfx
              · exact List.IsPrefix.trans hpfx (hih.1 r h)
            · simp only [List.cons_append, List.nil_append]
              refine List.chain'_cons'.mpr ⟨?_, hih.2⟩
              intro y hy
              exact hih.1 y (List.mem_of_mem_head? hy)

theorem decodeRun_length_eq (evs : List StreamEvent) :
    StreamEvent.error ∉ evs →
      ∀ st, (decodeRun st evs).1.length = (evs.filter isRealChunk).length := by
  induction evs with
  | nil => intro _ st; rfl
  | cons e rest ih =>
      intro herr st
      cases e with
      | error => exact absurd (by simp) herr
      | chunk t =>
          have h2 : StreamEvent.error ∉ rest := fun h => herr (by simp [h])
          by_cases ht : t = ""
          · subst ht
            rw [decodeRun_chunk, processChunk_empty]
            simpa [isRealChunk] using ih h2 st
          · obtain ⟨L, x, hpc⟩ := processChunk_nonempty st t ht
            rw [decodeRun_chunk, hpc]
            simpa [isRealChunk, ht] using ih h2 ⟨L, st.fullText ++ x⟩

theorem decodeRun_isComplete_none (evs : List StreamEvent) :
    ∀ st, ∀ r ∈ (decodeRun st evs).1, r.isComplete = none := by
  induction evs with
  | nil => intro st r hr; simp [decodeRun] at hr
  | cons e rest ih =>
      intro st r hr
      cases e with
      | error => simp [decodeRun] at hr
      | chunk t =>
          by_cases ht : t = ""
          · subst ht
            rw [decodeRun_chunk, processChunk_empty] at hr
            exact ih st r (by simpa using hr)
          · obtain ⟨L, x, hpc⟩ := processChunk_nonempty st t ht
            rw [decodeRun_chunk, hpc] at hr
            simp only [List.cons_append, List.nil_append, List.mem_cons] at hr
            rcases hr with h | h
            · rw [h]
            · exact ih ⟨L, st.fullText ++ x⟩ r h

theorem decodeRun_error_trunc (evs₁ evs₂ : List StreamEvent) :
    StreamEvent.error ∉ evs₁ →
      ∀ st, (decodeRun st (evs₁ ++ StreamEvent.error :: evs₂)).1
        = (decodeRun st evs₁).1 := by
  induction evs₁ with
  | nil => intro _ st; rfl
  | cons e rest ih =>
      intro herr st
      cases e with
      | error => exact absurd (by simp) herr
      | chunk t =>
          rw [List.cons_append, decodeRun_chunk, decodeRun_chunk]
          simp only []
          rw [ih (fun h => herr (by simp [h])) _]

theorem publishFold_nil (prev : Option TranslationResult) :
    publishFold prev [] = prev := rfl

/-! Helper lemmas about the debounce effect. -/

theorem debounceEffect_consistent {st : DebounceState}
    (h : st.outstanding = if st.pendingTimer.isSome then 1 else 0) (i : String) :
    (debounceEffect st i).outstanding
      = if (debounceEffect st i).pendingTimer.isSome then 1 else 0 := by
  rcases hp : st.pendingTimer with _ | p <;> by_cases hi : i = "" <;>
    simp [debounceEffect, clearPending, hp, hi, h]

theorem foldl_debounce_consistent (inputs : List String) :
    ∀ st : DebounceState,
      st.outstanding = (if st.pendingTimer.isSome then 1 else 0) →
      (List.foldl debounceEffect st inputs).outstanding
        = if (List.foldl debounceEffect st inputs).pendingTimer.isSome then 1 else 0 := by
  induction inputs with
  | nil => intro st h; exact h
  | cons i rest ih =>
      intro st h
      exact ih _ (debounceEffect_consistent h i)

/-! Claim theorems. -/

/-- C1: the claim says that once a newer request is submitted, no result of
the superseded request is ever published, enforced by a cancellation check
before each publish.  The source performs no such check: the loop of
App.tsx:179-181 publishes unconditionally, and the `AbortController` that
`performTranslation` creates and aborts is never consulted (nor passed to
the stream).  This theorem evaluates the modelled interleaving at a
concrete failing input: the old request ("hi", chunks "en\nAA", "BB")
publishes `{en,"AA"}`, the new request ("hello", chunk "en\nXX") is
submitted (aborting the old controller) and publishes `{en,"XX"}`, and then
the old request's late chunk still publishes `{en,"AABB"}` — a stale result
after the submission and even after the newer request's output, violating
the claimed property `noStaleAfterSubmit`. -/
theorem c1_stale_result_published :
    (raceRun (raceInit "hi" "hello"
        [StreamEvent.chunk "en\nAA", StreamEvent.chunk "BB"]
        [StreamEvent.chunk "en\nXX"])
      [SchedStep.oldChunk, SchedStep.newSubmit, SchedStep.newChunk,
        SchedStep.oldChunk]).log
      = [LogEntry.published 0 ⟨"en", "AA", none⟩, LogEntry.submitted,
         LogEntry.published 1 ⟨"en", "XX", none⟩,
         LogEntry.published 0 ⟨"en", "AABB", none⟩] ∧
    (raceRun (raceInit "hi" "hello"
        [StreamEvent.chunk "en\nAA", StreamEvent.chunk "BB"]
        [StreamEvent.chunk "en\nXX"])
      [SchedStep.oldChunk, SchedStep.newSubmit, SchedStep.newChunk,
        SchedStep.oldChunk]).oldAborted = true ∧
    noStaleAfterSubmit (raceRun (raceInit "hi" "hello"
        [StreamEvent.chunk "en\nAA", StreamEvent.chunk "BB"]
        [StreamEvent.chunk "en\nXX"])
      [SchedStep.oldChunk, SchedStep.newSubmit, SchedStep.newChunk,
        SchedStep.oldChunk]).log = false := by
  decide

/-- C2 counterexample: for the stream "en\n", "Bon" ending normally, the
decoder emits exactly the two per-chunk results and no emission carries
`isComplete = some true` — there is no final completion-marked result, so
the claim as stated fails at this input. -/
theorem c2_counterexample :
    translateTextStream "hello" [StreamEvent.chunk "en\n", StreamEvent.chunk "Bon"]
      = [⟨"en", "", none⟩, ⟨"en", "Bon", none⟩] ∧
    (∀ r ∈ translateTextStream "hello"
        [StreamEvent.chunk "en\n", StreamEvent.chunk "Bon"],
      r.isComplete ≠ some true) := by
  decide

/-- C2 (amended): for every non-blank input and stream that ends normally,
the decoder emits exactly one TranslationResult per non-empty chunk, and no
emission carries an `isComplete` flag (the source never assigns the field,
so it is JS `undefined`, modelled `none`); in particular no final
completion-marked result is emitted when the stream ends. -/
theorem c2_per_chunk_emissions (text : String) (events : List StreamEvent)
    (htext : jsTrim text ≠ "") (herr : StreamEvent.error ∉ events) :
    (translateTextStream text events).length
      = (events.filter isRealChunk).length ∧
    (∀ r ∈ translateTextStream text events, r.isComplete = none) := by
  rw [translateTextStream, if_neg htext]
  exact ⟨decodeRun_length_eq events herr ⟨"", ""⟩,
    decodeRun_isComplete_none events ⟨"", ""⟩⟩

/-- C2 witness: the amended theorem at the concrete stream "en\n", "Bon",
"" (an empty chunk produces no emission). -/
theorem c2_witness :
    (translateTextStream "hello"
        [StreamEvent.chunk "en\n", StreamEvent.chunk "Bon", StreamEvent.chunk ""]).length
      = ([StreamEvent.chunk "en\n", StreamEvent.chunk "Bon",
          StreamEvent.chunk ""].filter isRealChunk).length ∧
    (∀ r ∈ translateTextStream "hello"
        [StreamEvent.chunk "en\n", StreamEvent.chunk "Bon", StreamEvent.chunk ""],
      r.isComplete = none) :=
  c2_per_chunk_emissions "hello"
    [StreamEvent.chunk "en\n", StreamEvent.chunk "Bon", StreamEvent.chunk ""]
    (by decide) (by decide)

/-- C3: within one request, the sequence of emitted translation texts is
monotonically prefix-growing: each emission's text has the previous
emission's text as a prefix (equal or extended, never shrunk or
rewritten). -/
theorem c3_translations_prefix_monotone (text : String)
    (events : List StreamEvent) :
    List.Chain' (fun a b => a.translation.data <+: b.translation.data)
      (translateTextStream text events) := by
  rw [translateTextStream]
  by_cases h : jsTrim text = ""
  · simp [h]
  · rw [if_neg h]
    exact (decodeRun_prefix_chain events ⟨"", ""⟩).2

/-- C4: the detected language is decided from the first line of the first
non-empty chunk — `zh` exactly when that line's lowercased content contains
the substring "zh", else `en` (the `trim` the source also applies cannot
change whether the non-whitespace pattern "zh" occurs, see
`jsIncludes_trim_lower`) — the decision is made once, every emission of the
stream carries it, the rest of that first line is discarded, and the text
after the first newline becomes the first emission's buffer. -/
theorem c4_language_from_first_line (text c lang : String)
    (pre rest : List StreamEvent)
    (htext : jsTrim text ≠ "")
    (hpre : ∀ e ∈ pre, e = StreamEvent.chunk "")
    (hc : c ≠ "")
    (hlang : lang = if jsIncludes (jsToLower ((jsSplitNl c).headD "")) "zh"
        then "zh" else "en") :
    (∀ r ∈ translateTextStream text (pre ++ StreamEvent.chunk c :: rest),
      r.detectedLanguage = lang) ∧
    (translateTextStream text (pre ++ StreamEvent.chunk c :: rest)).head?
      = some ⟨lang, jsJoinNl ((jsSplitNl c).drop 1), none⟩ := by
  have hlang' : lang = langOfChunk c := by
    rw [hlang, langOfChunk_claim_cond]
  have hpc : processChunk ⟨"", ""⟩ c
      = (⟨langOfChunk c, restOfChunk c⟩, [⟨langOfChunk c, restOfChunk c, none⟩]) := by
    simp [processChunk, hc, empty_string_append]
  rw [translateTextStream, if_neg htext, decodeRun_skip_empty pre _ hpre,
    decodeRun_chunk, hpc]
  constructor
  · intro r hr
    simp only [List.cons_append, List.nil_append, List.mem_cons] at hr
    rcases hr with h | h
    · rw [h, hlang']
    · rw [hlang']
      exact decodeRun_lang_const rest (langOfChunk c) (restOfChunk c)
        (langOfChunk_ne_empty c) r h
  · simp [hlang', restOfChunk]

/-- C4 witness: the first non-empty chunk "ZH x\nfoo" (preceded by an empty
chunk) yields detected language "zh" for every emission, and the first
emission's buffer is the text after the first newline. -/
theorem c4_witness :
    (∀ r ∈ translateTextStream "hi"
        ([StreamEvent.chunk ""] ++ StreamEvent.chunk "ZH x\nfoo" ::
          [StreamEvent.chunk "bar"]),
      r.detectedLanguage = "zh") ∧
    (translateTextStream "hi"
        ([StreamEvent.chunk ""] ++ StreamEvent.chunk "ZH x\nfoo" ::
          [StreamEvent.chunk "bar"])).head?
      = some ⟨"zh", jsJoinNl ((jsSplitNl "ZH x\nfoo").drop 1), none⟩ :=
  c4_language_from_first_line "hi" "ZH x\nfoo" "zh"
    [StreamEvent.chunk ""] [StreamEvent.chunk "bar"]
    (by decide) (by decide) (by decide) (by decide)

/-- C5: for an empty or whitespace-only input, `performTranslation` clears
the published translation to `none`, sets `isTranslating` to false,
publishes nothing, never invokes the remote call, and the stream generator
itself yields nothing for blank input. -/
theorem c5_blank_input_clears (st : AppState) (text : String)
    (events : List StreamEvent)
    (h : ∀ c ∈ text.data, c.isWhitespace = true) :
    performTranslation st text events
      = { final := { translation := none, isTranslating := false },
          published := [], remoteInvoked := false } ∧
    translateTextStream text events = [] := by
  have hb : jsTrim text = "" := jsTrim_eq_empty_of_ws text h
  exact ⟨by rw [performTranslation, if_pos hb],
    by rw [translateTextStream, if_pos hb]⟩

/-- C5 witness: the whitespace-only input " \t " with a previous result and
a pending stream. -/
theorem c5_witness :
    performTranslation ⟨some ⟨"en", "x", none⟩, true⟩ " \t "
        [StreamEvent.chunk "en\nhi"]
      = { final := { translation := none, isTranslating := false },
          published := [], remoteInvoked := false } ∧
    translateTextStream " \t " [StreamEvent.chunk "en\nhi"] = [] :=
  c5_blank_input_clears ⟨some ⟨"en", "x", none⟩, true⟩ " \t "
    [StreamEvent.chunk "en\nhi"] (by decide)

/-- C6: after any sequence of input changes at most one timer is
outstanding, and a further change to a non-empty input cancels the pending
timer and leaves exactly one timer, scheduled with delay 200 ms when the
input is shorter than 5 characters and 400 ms otherwise, dispatching that
input. -/
theorem c6_debounce_schedule (inputs : List String) (s : String)
    (hs : s ≠ "") :
    (List.foldl debounceEffect ⟨none, 0⟩ inputs).outstanding ≤ 1 ∧
    (debounceEffect (List.foldl debounceEffect ⟨none, 0⟩ inputs) s).outstanding
      = 1 ∧
    (s.length < 5 →
      (debounceEffect (List.foldl debounceEffect ⟨none, 0⟩ inputs) s).pendingTimer
        = some (200, s)) ∧
    (¬ s.length < 5 →
      (debounceEffect (List.foldl debounceEffect ⟨none, 0⟩ inputs) s).pendingTimer
        = some (400, s)) := by
  have hc := foldl_debounce_consistent inputs ⟨none, 0⟩ rfl
  refine ⟨?_, ?_, ?_, ?_⟩
  · rw [hc]; split <;> simp
  · have h2 := debounceEffect_consistent hc s
    have h3 : (debounceEffect (List.foldl debounceEffect ⟨none, 0⟩ inputs)
        s).pendingTimer = some (debounceDelay s, s) := by
      simp [debounceEffect, hs]
    rw [h2, h3]
    rfl
  · intro hlen
    simp [debounceEffect, hs, debounceDelay, hlen]
  · intro hlen
    simp [debounceEffect, hs, debounceDelay, hlen]

/-- C6 witness: after the keystrokes "a", "ab", the change to "hello"
(5 characters) leaves exactly the 400 ms timer for "hello". -/
theorem c6_witness :
    (debounceEffect (List.foldl debounceEffect ⟨none, 0⟩ ["a", "ab"])
        "hello").pendingTimer = some (400, "hello") ∧
    (debounceEffect (List.foldl debounceEffect ⟨none, 0⟩ ["a", "ab"])
        "hello").outstanding = 1 :=
  ⟨(c6_debounce_schedule ["a", "ab"] "hello" (by decide)).2.2.2 (by decide),
   (c6_debounce_schedule ["a", "ab"] "hello" (by decide)).2.1⟩

/-- C7: if the stream errors mid-flight, decoding stops silently — the
emitted results and the whole outcome of `performTranslation` equal those
of the stream truncated at the error, no error value is ever emitted or
propagated (the run is the total function below), `isTranslating` is reset
by the `finally`, and when nothing was published before the error the
previously published result is left in place. -/
theorem c7_error_absorbed (st : AppState) (text : String)
    (evs₁ evs₂ : List StreamEvent) (htext : jsTrim text ≠ "")
    (herr : StreamEvent.error ∉ evs₁) :
    translateTextStream text (evs₁ ++ StreamEvent.error :: evs₂)
      = translateTextStream text evs₁ ∧
    performTranslation st text (evs₁ ++ StreamEvent.error :: evs₂)
      = performTranslation st text evs₁ ∧
    (performTranslation st text
        (evs₁ ++ StreamEvent.error :: evs₂)).final.isTranslating = false ∧
    (translateTextStream text evs₁ = [] →
      (performTranslation st text
          (evs₁ ++ StreamEvent.error :: evs₂)).final.translation
        = st.translation) := by
  have hstream : translateTextStream text (evs₁ ++ StreamEvent.error :: evs₂)
      = translateTextStream text evs₁ := by
    rw [translateTextStream, translateTextStream, if_neg htext, if_neg htext]
    exact decodeRun_error_trunc evs₁ evs₂ herr ⟨"", ""⟩
  refine ⟨hstream, ?_, ?_, ?_⟩
  · rw [performTranslation, performTranslation, if_neg htext, if_neg htext,
      hstream]
  · rw [performTranslation, if_neg htext]
  · intro hnil
    rw [performTranslation, if_neg htext, hstream, hnil]
    rfl

/-- C7 witness: the stream "en\nBo" then an error then a never-consumed
chunk behaves exactly like the stream truncated at the error. -/
theorem c7_witness :
    performTranslation ⟨some ⟨"en", "p", none⟩, false⟩ "hi"
        ([StreamEvent.chunk "en\nBo"] ++ StreamEvent.error ::
          [StreamEvent.chunk "zz"])
      = performTranslation ⟨some ⟨"en", "p", none⟩, false⟩ "hi"
          [StreamEvent.chunk "en\nBo"] :=
  (c7_error_absorbed ⟨some ⟨"en", "p", none⟩, false⟩ "hi"
    [StreamEvent.chunk "en\nBo"] [StreamEvent.chunk "zz"]
    (by decide) (by decide)).2.1

/-- C8 counterexample: for input "hello" and chunks "en\n", "Bon", "jour",
the first published result is `{en, ""}` — published before the claimed
first result `{en, "Bon"}` — and no result is marked complete, so the
claimed publication sequence is wrong at this input. -/
theorem c8_counterexample :
    (translateTextStream "hello"
        [StreamEvent.chunk "en\n", StreamEvent.chunk "Bon",
          StreamEvent.chunk "jour"]).head? = some ⟨"en", "", none⟩ ∧
    (⟨"en", "", none⟩ : TranslationResult).translation ≠ "Bon" ∧
    (∀ r ∈ translateTextStream "hello"
        [StreamEvent.chunk "en\n", StreamEvent.chunk "Bon",
          StreamEvent.chunk "jour"],
      r.isComplete ≠ some true) := by
  decide

/-- C8 (amended): for input "hello" (debounce delay 400 ms) with chunks
"en\n", "Bon", "jour", the published results are, in order, `{en, ""}`,
`{en, "Bon"}`, `{en, "Bonjour"}` — the first chunk publishes the empty
buffer and no completion-marked final result exists — and the slot ends at
`{en, "Bonjour"}`. -/
theorem c8_actual_scenario :
    debounceDelay "hello" = 400 ∧
    (performTranslation ⟨none, false⟩ "hello"
        [StreamEvent.chunk "en\n", StreamEvent.chunk "Bon",
          StreamEvent.chunk "jour"]).published
      = [⟨"en", "", none⟩, ⟨"en", "Bon", none⟩, ⟨"en", "Bonjour", none⟩] ∧
    (performTranslation ⟨none, false⟩ "hello"
        [StreamEvent.chunk "en\n", StreamEvent.chunk "Bon",
          StreamEvent.chunk "jour"]).final.translation
      = some ⟨"en", "Bonjour", none⟩ := by
  decide

/-- C9 counterexample: a stream that ends with only an empty chunk leaves
the previously published result `{en, "old"}` in the slot — the state does
not revert to the "no translation" state `none`, refuting the claim at
this input. -/
theorem c9_counterexample :
    (performTranslation ⟨some ⟨"en", "old", none⟩, false⟩ "hi"
        [StreamEvent.chunk ""]).final.translation = some ⟨"en", "old", none⟩ ∧
    some (⟨"en", "old", none⟩ : TranslationResult)
      ≠ (none : Option TranslationResult) := by
  decide

/-- C9 (amended): if the stream ends before any non-empty chunk, the
decoder emits no result and `performTranslation` publishes nothing, leaves
the previously published translation unchanged (rather than reverting it to
`none`) and signals no error; an empty chunk is always skipped and produces
no result. -/
theorem c9_no_chunk_keeps_state (st : AppState) (text : String)
    (events : List StreamEvent) (htext : jsTrim text ≠ "")
    (hev : ∀ e ∈ events, e = StreamEvent.chunk "") :
    translateTextStream text events = [] ∧
    (performTranslation st text events).published = [] ∧
    (performTranslation st text events).final.translation = st.translation ∧
    (performTranslation st text events).final.isTranslating = false ∧
    (∀ st' : DecodeState, processChunk st' "" = (st', [])) := by
  have hstream : translateTextStream text events = [] := by
    rw [translateTextStream, if_neg htext]
    have h := decodeRun_skip_empty events [] hev ⟨"", ""⟩
    rw [List.append_nil] at h
    rw [h]
    rfl
  refine ⟨hstream, ?_, ?_, ?_, fun st' => processChunk_empty st'⟩
  · rw [performTranslation, if_neg htext, hstream]
  · rw [performTranslation, if_neg htext, hstream]
    rfl
  · rw [performTranslation, if_neg htext]

/-- C9 witness: the amended theorem at a stream of two empty chunks with a
previous result in the slot. -/
theorem c9_witness :
    translateTextStream "hi" [StreamEvent.chunk "", StreamEvent.chunk ""] = [] ∧
    (performTranslation ⟨some ⟨"en", "old", none⟩, false⟩ "hi"
        [StreamEvent.chunk "", StreamEvent.chunk ""]).published = [] ∧
    (performTranslation ⟨some ⟨"en", "old", none⟩, false⟩ "hi"
        [StreamEvent.chunk "", StreamEvent.chunk ""]).final.translation
      = some ⟨"en", "old", none⟩ ∧
    (performTranslation ⟨some ⟨"en", "old", none⟩, false⟩ "hi"
        [StreamEvent.chunk "", StreamEvent.chunk ""]).final.isTranslating
      = false ∧
    (∀ st' : DecodeState, processChunk st' "" = (st', [])) :=
  c9_no_chunk_keeps_state ⟨some ⟨"en", "old", none⟩, false⟩ "hi"
    [StreamEvent.chunk "", StreamEvent.chunk ""] (by decide) (by decide)

/-- C10: `speak` called with the empty text string returns immediately
without touching either speaking flag and without issuing any remote or
local speech action. -/
theorem c10_speak_empty_noop (st : SpeakState) (env : SpeakEnv)
    (lang : String) (isSource : Bool) :
    speak st env "" lang isSource = (st, []) := by
  rw [speak]
  simp

end RTTR
